import Mathlib

/-!
# Verification of the character-accounting pipeline of `srcanalysis`

Shallow embedding of `src/main.rs` (the by-extension variant of the Unicode
character histogram tool). The Rust program walks a directory, reads every
regular file as UTF-8 text, NFC-normalizes it, segments it into extended
grapheme clusters, and tallies the first scalar value of every
non-control-character cluster into per-extension maps
(`codepoint_counts_by_extension`, `total_chars_by_extension`,
`ascii_chars_by_extension`); finally it reports, per extension, the
(codepoint, count) pairs sorted by count descending, plus ASCII /
non-ASCII summary percentages.

Modelling decisions:
* The three `HashMap`s are embedded as association lists; Rust's
  `entry(k).or_insert(0) += 1` is the `bump` operation below, which
  increments the first entry for `k` or appends `(k, 1)`.
* The `u128` counters are only ever incremented by one, so they are
  embedded as `Nat` (an overflow would require `2^128` single-character
  increments, unreachable from any finite input).
* Rust's `char::is_control` tests Unicode general category `Cc`, which is
  exactly `U+0000..U+001F ∪ U+007F..U+009F`; this is written out directly.
* NFC normalization (`unicode_normalization` crate), extended grapheme
  segmentation (`unicode_segmentation` crate) and the general-category
  predicates (`unicode_categories` crate) are external library
  collaborators: the pipeline is parameterized over them (`UnicodeLib`,
  `UnicodeCategories`), and a small concrete instance modelled from the
  spec's description of their behavior is provided for concrete runs.
* `grapheme.chars().next().unwrap()` can panic on an empty grapheme, so
  the per-grapheme step returns `Option`; `none` models the panic.
* File reading is an external collaborator: each file arrives as an
  `Except String String` (`Except.error` models `fs::read_to_string`
  returning `Err`, which covers both I/O failures and invalid UTF-8).
-/

namespace SrcAnalysis

/-- Association-list lookup, first matching key wins (models `HashMap::get`). -/
def alookup {α β : Type} [DecidableEq α] : List (α × β) → α → Option β
  | [], _ => none
  | (k, v) :: rest, k' => if k = k' then some v else alookup rest k'

/-- `entry(k).or_insert(0) += 1` on a counter map: increment the entry for
`k`, creating it with count 1 when absent. -/
def bump {α : Type} [DecidableEq α] : List (α × Nat) → α → List (α × Nat)
  | [], k => [(k, 1)]
  | (k', v) :: rest, k => if k' = k then (k', v + 1) :: rest else (k', v) :: bump rest k

/-- `entry(ext).or_insert_with(HashMap::new).entry(cp).or_insert(0) += 1`
on the nested per-extension tally map. -/
def bumpTally : List (String × List (Nat × Nat)) → String → Nat → List (String × List (Nat × Nat))
  | [], ext, cp => [(ext, [(cp, 1)])]
  | (k, t) :: rest, ext, cp =>
    if k = ext then (k, bump t cp) :: rest else (k, t) :: bumpTally rest ext cp

/-- The aggregator state: the three per-extension maps owned by `main`. -/
structure AggState where
  codepoint_counts_by_extension : List (String × List (Nat × Nat))
  total_chars_by_extension : List (String × Nat)
  ascii_chars_by_extension : List (String × Nat)
  deriving Repr, DecidableEq

/-- The empty aggregator created at process start (`HashMap::new()` three times). -/
def emptyAgg : AggState := ⟨[], [], []⟩

/-- Rust's `char::is_control`: Unicode general category `Cc`, i.e. the
codepoints `U+0000..U+001F` and `U+007F..U+009F`. -/
def char_is_control (c : Char) : Bool :=
  c.toNat ≤ 0x1F || (0x7F ≤ c.toNat && c.toNat ≤ 0x9F)

/-- One iteration of the `for grapheme in normalized_content.graphemes(true)`
loop body of `process_file`: take the grapheme's first scalar value
(`grapheme.chars().next().unwrap()`; `none` models the panic on an empty
grapheme), discard control characters, otherwise bump the tally, the total,
and (for scalar values `≤ 0x7F`) the ASCII counter of the partition. -/
def tallyStep (st : AggState) (extensionKey : String) (grapheme : String) : Option AggState :=
  match grapheme.toList with
  | [] => none
  | c :: _ =>
    if char_is_control c then some st
    else
      let codepoint := c.toNat
      some
        { codepoint_counts_by_extension :=
            bumpTally st.codepoint_counts_by_extension extensionKey codepoint
          total_chars_by_extension := bump st.total_chars_by_extension extensionKey
          ascii_chars_by_extension :=
            if codepoint ≤ 0x7F then bump st.ascii_chars_by_extension extensionKey
            else st.ascii_chars_by_extension }

/-- The whole grapheme loop of `process_file`, folded over the cluster list. -/
def processGraphemes (extensionKey : String) : List String → AggState → Option AggState
  | [], st => some st
  | g :: gs, st =>
    match tallyStep st extensionKey g with
    | none => none
    | some st' => processGraphemes extensionKey gs st'

/-- The external Unicode library collaborators used by `process_file`:
`nfc()` from the `unicode_normalization` crate and `graphemes(true)` from
the `unicode_segmentation` crate. -/
structure UnicodeLib where
  nfc : String → String
  graphemes : String → List String

/-- `process_file`: on a successful read, NFC-normalize the content, segment
it into extended grapheme clusters and run the tally loop, emitting no
warning; on a read error (I/O failure or invalid UTF-8), leave the state
untouched and emit the single warning line
`Error reading file {path}: {e}`. The returned `List String` collects the
`eprintln!` warning lines; `none` models a panic inside the loop. -/
def process_file (L : UnicodeLib) (path : String) (readResult : Except String String)
    (extensionKey : String) (st : AggState) : Option (AggState × List String) :=
  match readResult with
  | Except.ok content =>
    let normalized_content := L.nfc content
    match processGraphemes extensionKey (L.graphemes normalized_content) st with
    | none => none
    | some st' => some (st', [])
  | Except.error err => some (st, ["Error reading file " ++ path ++ ": " ++ err])

/-- One regular file as the traversal driver hands it to `process_file`:
its path, its extension key (`path.extension().unwrap_or_default()`), and
the result of `fs::read_to_string`. -/
structure FileInput where
  path : String
  extensionKey : String
  readResult : Except String String
  deriving Repr

/-- The traversal loop of `main`: process the regular files in order,
threading the aggregator state (warnings are printed, not accumulated). -/
def runFiles (L : UnicodeLib) : List FileInput → AggState → Option AggState
  | [], st => some st
  | f :: rest, st =>
    match process_file L f.path f.readResult f.extensionKey st with
    | none => none
    | some (st', _) => runFiles L rest st'

/-- The partition tally the report reads for an extension (`[]` when absent). -/
def lookupTally (st : AggState) (extensionKey : String) : List (Nat × Nat) :=
  (alookup st.codepoint_counts_by_extension extensionKey).getD []

/-- `total_chars_by_extension.get(&extension).unwrap_or(&0)`. -/
def lookupTotal (st : AggState) (extensionKey : String) : Nat :=
  (alookup st.total_chars_by_extension extensionKey).getD 0

/-- `ascii_chars_by_extension.get(&extension).unwrap_or(&0)`. -/
def lookupAscii (st : AggState) (extensionKey : String) : Nat :=
  (alookup st.ascii_chars_by_extension extensionKey).getD 0

/-- Sum of all counts of a tally. -/
def sumCounts : List (Nat × Nat) → Nat
  | [] => 0
  | p :: rest => p.2 + sumCounts rest

/-- Sum of the counts of a tally whose codepoint is `≤ 0x7F`. -/
def sumAsciiCounts : List (Nat × Nat) → Nat
  | [] => 0
  | p :: rest => (if p.1 ≤ 0x7F then p.2 else 0) + sumAsciiCounts rest

/-- Insertion step of the report's descending sort by count
(`count_vec.sort_by(|a, b| b.1.cmp(&a.1))`). -/
def insertByCountDesc (p : Nat × Nat) : List (Nat × Nat) → List (Nat × Nat)
  | [] => [p]
  | q :: rest => if p.2 ≤ q.2 then q :: insertByCountDesc p rest else p :: q :: rest

/-- The report's sort of a partition's `(codepoint, count)` pairs by count
in non-increasing order. -/
def sortByCountDesc : List (Nat × Nat) → List (Nat × Nat)
  | [] => []
  | p :: rest => insertByCountDesc p (sortByCountDesc rest)

/-- The `count_vec` the report iterates for a partition (lines 54–55 of
`main.rs`): the partition's tally sorted by count descending. -/
def count_vec (st : AggState) (extensionKey : String) : List (Nat × Nat) :=
  sortByCountDesc (lookupTally st extensionKey)

/-- Model of `(*ascii_chars as f64 / *total_chars as f64) * 100.0`: the
`f64` value is represented as a rational, and the NaN produced by the
`0.0 / 0.0` division on a zero total is modelled as `none` (the `f64`
rounding of well-defined quotients is abstracted away; only the
defined-versus-NaN distinction is modelled). -/
def ascii_percent (ascii_chars total_chars : Nat) : Option ℚ :=
  if total_chars = 0 then none
  else some ((ascii_chars : ℚ) / (total_chars : ℚ) * 100)

/-- Model of `100.0 - ascii_percent`: NaN (`none`) propagates. -/
def non_ascii_percent (ascii_chars total_chars : Nat) : Option ℚ :=
  match ascii_percent ascii_chars total_chars with
  | none => none
  | some p => some (100 - p)

/-- The general-category predicates of the `unicode_categories` crate used
by `get_character_category`, as an external table collaborator. -/
structure UnicodeCategories where
  is_letter : Char → Bool
  is_number : Char → Bool
  is_separator_space : Char → Bool
  is_punctuation : Char → Bool
  is_symbol : Char → Bool

/-- `get_character_category`: first-match classification of a character
into one of the five category names, exactly as the Rust `if` chain. -/
def get_character_category (U : UnicodeCategories) (c : Char) : String :=
  if U.is_letter c || U.is_number c then "Alphanumeric"
  else if U.is_separator_space c then "Space"
  else if U.is_punctuation c then "Punctuation"
  else if U.is_symbol c then "Symbol"
  else "Other"

/-- A grapheme cluster whose leading scalar value is a control character
(the characters `process_file` discards). -/
def controlLed (g : String) : Bool :=
  match g.toList with
  | [] => false
  | c :: _ => char_is_control c

/-- The segmentation library's contract that `process_file` relies on for
`grapheme.chars().next().unwrap()`: every produced grapheme cluster is a
non-empty string. -/
def GraphemesNonEmpty (L : UnicodeLib) : Prop :=
  ∀ s g, g ∈ L.graphemes s → g.toList ≠ []

/-- The running-counter consistency invariant of the aggregator: for every
partition, `total_chars` is the sum of all tally counts, `ascii_chars` is
the sum of the counts with codepoint `≤ 0x7F`, and every tally present in
the map has a positive total. -/
def Consistent (st : AggState) : Prop :=
  (∀ ext, lookupTotal st ext = sumCounts (lookupTally st ext)) ∧
  (∀ ext, lookupAscii st ext = sumAsciiCounts (lookupTally st ext)) ∧
  (∀ ext t, alookup st.codepoint_counts_by_extension ext = some t → 1 ≤ sumCounts t)

/-- Modelled from the spec: the combining-mark test underlying grapheme
segmentation, restricted to the combining diacritical marks block
`U+0300..U+036F` (the spec's examples use `U+0301`). -/
def isCombiningMark (c : Char) : Bool :=
  0x300 ≤ c.toNat && c.toNat ≤ 0x36F

/-- Modelled from the spec: NFC canonical composition (the
`unicode_normalization` crate's `nfc()`), restricted to the composition
pair the spec names — `U+0065` followed by `U+0301` composes to `U+00E9`
("é"); all other characters pass through unchanged. -/
def nfcCompose : List Char → List Char
  | [] => []
  | [c] => [c]
  | c1 :: c2 :: rest =>
    if c1 = 'e' && c2.toNat = 0x301 then Char.ofNat 0xE9 :: nfcCompose rest
    else c1 :: nfcCompose (c2 :: rest)

/-- Modelled from the spec: extended grapheme segmentation (the
`unicode_segmentation` crate's `graphemes(true)`), restricted to the rule
the spec exercises — a combining mark attaches to the preceding base
character, every other character starts its own cluster. `base` is the
current cluster's first scalar and `marks` its combining marks so far,
in reverse. -/
def clustersAux (base : Char) (marks : List Char) : List Char → List (List Char)
  | [] => [base :: marks.reverse]
  | c :: rest =>
    if isCombiningMark c then clustersAux base (c :: marks) rest
    else (base :: marks.reverse) :: clustersAux c [] rest

/-- Modelled from the spec: split a scalar-value sequence into grapheme
clusters (see `clustersAux`). -/
def clusters : List Char → List (List Char)
  | [] => []
  | c :: rest => clustersAux c [] rest

/-- The concrete `UnicodeLib` instance built from the spec-modelled
normalization and segmentation, used for concrete runs of the pipeline. -/
def modelLib : UnicodeLib :=
  { nfc := fun s => String.mk (nfcCompose s.toList)
    graphemes := fun s => (clusters s.toList).map String.mk }

/-- A concrete `UnicodeCategories` instance: the ASCII fragment of the
`unicode_categories` tables (letters and digits, the space separator,
ASCII punctuation and symbols per their Unicode general categories),
used for concrete evaluation of `get_character_category`. -/
def asciiCategories : UnicodeCategories :=
  { is_letter := fun c => c.isAlpha
    is_number := fun c => c.isDigit
    is_separator_space := fun c => c = ' '
    is_punctuation := fun c =>
      ("!\x22#%&()*,-./:;?@[\x5c]_\x7b\x7d".toList.contains c : Bool)
    is_symbol := fun c =>
      ("$+<=>^|~".toList.contains c : Bool) }

/-! ## Theorems -/

/-- C7: for every file whose read or UTF-8 decode fails, `process_file`
leaves the aggregator state untouched, emits exactly one warning line
identifying the path, and returns normally (the run continues with the
next file rather than aborting). -/
theorem c7_read_error_atomic (L : UnicodeLib) (path errMsg extensionKey : String)
    (st : AggState) :
    process_file L path (Except.error errMsg) extensionKey st
      = some (st, ["Error reading file " ++ path ++ ": " ++ errMsg]) := rfl

/-- C2: file contents that are canonically equivalent — i.e. that NFC
normalization folds to the same string — produce identical results under
`process_file`, whatever the aggregator state. -/
theorem c2_nfc_equiv_same_tally (L : UnicodeLib) (p1 p2 s1 s2 extensionKey : String)
    (st : AggState) (h : L.nfc s1 = L.nfc s2) :
    process_file L p1 (Except.ok s1) extensionKey st
      = process_file L p2 (Except.ok s2) extensionKey st := by
  simp [process_file, h]

/-- C2 witness: the precomposed "é" (U+00E9) and its decomposed
counterpart U+0065 U+0301 normalize identically under the model library
and are processed to identical results. -/
theorem c2_nfc_equiv_same_tally_witness :
    modelLib.nfc (String.mk [Char.ofNat 0xE9])
        = modelLib.nfc (String.mk [Char.ofNat 0x65, Char.ofNat 0x301])
      ∧ process_file modelLib "a.txt" (Except.ok (String.mk [Char.ofNat 0xE9])) "txt" emptyAgg
        = process_file modelLib "b.txt"
            (Except.ok (String.mk [Char.ofNat 0x65, Char.ofNat 0x301])) "txt" emptyAgg :=
  ⟨by decide,
   c2_nfc_equiv_same_tally modelLib "a.txt" "b.txt" (String.mk [Char.ofNat 0xE9])
     (String.mk [Char.ofNat 0x65, Char.ofNat 0x301]) "txt" emptyAgg (by decide)⟩

/-- C3 counterexample: processing a file containing exactly U+0065 U+0301
produces one tally entry, but it is keyed by the NFC-composed codepoint
U+00E9 = 233, not by the base character U+0065 = 101 as the claim states. -/
theorem c3_base_codepoint_counterexample :
    ((process_file modelLib "d/f.txt"
          (Except.ok (String.mk [Char.ofNat 0x65, Char.ofNat 0x301])) "txt" emptyAgg).map
        (fun r => lookupTally r.1 "txt") = some [(0xE9, 1)])
      ∧ ¬ ((process_file modelLib "d/f.txt"
          (Except.ok (String.mk [Char.ofNat 0x65, Char.ofNat 0x301])) "txt" emptyAgg).map
        (fun r => lookupTally r.1 "txt") = some [(0x65, 1)]) := by
  constructor
  · decide
  · decide

/-- C3 amended: processing a file containing exactly U+0065 U+0301
produces exactly one tally entry, keyed by the composed codepoint U+00E9:
NFC normalization composes the pair before segmentation, so the first
(and only) scalar of the single grapheme cluster is U+00E9. -/
theorem c3_composed_codepoint :
    (process_file modelLib "d/f.txt"
        (Except.ok (String.mk [Char.ofNat 0x65, Char.ofNat 0x301])) "txt" emptyAgg).map
      (fun r => lookupTally r.1 "txt") = some [(0xE9, 1)] := by decide

/-- C8 counterexample: with a zero total the percentage computation of the
report divides zero by zero, which in `f64` is NaN (modelled `none`): the
code defines no substitute value such as 0.00 % for this case. -/
theorem c8_zero_total_counterexample :
    ascii_percent 0 0 = none ∧ non_ascii_percent 0 0 = none :=
  ⟨rfl, rfl⟩

/-- C4: graphemes whose leading scalar value is a control character
contribute nothing: running the tally loop on a grapheme sequence gives
exactly the same result as running it with every control-led grapheme
discarded, so no tally entry, `total_chars` or `ascii_chars` of any
partition is ever incremented for a control character. -/
theorem c4_control_never_counted (extensionKey : String) (gs : List String)
    (st : AggState) :
    processGraphemes extensionKey gs st
      = processGraphemes extensionKey (gs.filter (fun g => !controlLed g)) st := by
  induction gs generalizing st with
  | nil => rfl
  | cons g rest ih =>
    cases hg : g.toList with
    | nil =>
      have hg' : g.data = [] := hg
      have hcl : controlLed g = false := by simp [controlLed, hg']
      simp only [List.filter, hcl, Bool.not_false, processGraphemes, tallyStep, hg, hg']
    | cons c cs =>
      have hg' : g.data = c :: cs := hg
      by_cases hc : char_is_control c
      · have hcl : controlLed g = true := by simp [controlLed, hg', hc]
        have hstep : tallyStep st extensionKey g = some st := by
          simp [tallyStep, hg', hc]
        simp only [List.filter, hcl, Bool.not_true, processGraphemes, hstep]
        exact ih st
      · have hcl : controlLed g = false := by simp [controlLed, hg', hc]
        simp only [List.filter, hcl, Bool.not_false, processGraphemes]
        cases hstep : tallyStep st extensionKey g with
        | none => rfl
        | some st' => exact ih st'

/-- Inserting a pair keeps the list a permutation of the cons. -/
theorem insertByCountDesc_perm (p : Nat × Nat) (l : List (Nat × Nat)) :
    List.Perm (insertByCountDesc p l) (p :: l) := by
  induction l with
  | nil => rfl
  | cons q rest ih =>
    by_cases h : p.2 ≤ q.2
    · have h1 : insertByCountDesc p (q :: rest) = q :: insertByCountDesc p rest := by
        simp [insertByCountDesc, h]
      rw [h1]
      exact List.Perm.trans (List.Perm.cons q ih) (List.Perm.swap p q rest)
    · simp [insertByCountDesc, h]

/-- Inserting a pair preserves sortedness by non-increasing count. -/
theorem insertByCountDesc_sorted (p : Nat × Nat) (l : List (Nat × Nat))
    (h : List.Sorted (fun a b : Nat × Nat => b.2 ≤ a.2) l) :
    List.Sorted (fun a b : Nat × Nat => b.2 ≤ a.2) (insertByCountDesc p l) := by
  induction l with
  | nil => simp [insertByCountDesc]
  | cons q rest ih =>
    rw [List.sorted_cons] at h
    by_cases hpq : p.2 ≤ q.2
    · rw [insertByCountDesc, if_pos hpq, List.sorted_cons]
      refine ⟨fun x hx => ?_, ih h.2⟩
      rcases List.mem_cons.mp ((insertByCountDesc_perm p rest).mem_iff.mp hx) with hxp | hxr
      · exact hxp ▸ hpq
      · exact h.1 x hxr
    · rw [insertByCountDesc, if_neg hpq, List.sorted_cons]
      refine ⟨fun x hx => ?_, List.sorted_cons.mpr h⟩
      rcases List.mem_cons.mp hx with hxq | hxr
      · exact hxq ▸ Nat.le_of_lt (Nat.lt_of_not_le hpq)
      · exact Nat.le_trans (h.1 x hxr) (Nat.le_of_lt (Nat.lt_of_not_le hpq))

/-- The report's sort is a permutation of the tally it sorts. -/
theorem sortByCountDesc_perm (l : List (Nat × Nat)) :
    List.Perm (sortByCountDesc l) l := by
  induction l with
  | nil => exact List.Perm.refl []
  | cons p rest ih =>
    exact List.Perm.trans (insertByCountDesc_perm p (sortByCountDesc rest))
      (List.Perm.cons p ih)

/-- The report's sort produces a list sorted by non-increasing count. -/
theorem sortByCountDesc_sorted (l : List (Nat × Nat)) :
    List.Sorted (fun a b : Nat × Nat => b.2 ≤ a.2) (sortByCountDesc l) := by
  induction l with
  | nil => simp [sortByCountDesc]
  | cons p rest ih => exact insertByCountDesc_sorted p (sortByCountDesc rest) ih

/-- C6: the `(codepoint, count)` sequence the report emits for a partition
(`count_vec`) is sorted by count in non-increasing order, and is a
permutation of the partition's tally (no pair is added, dropped or
altered by the sort). -/
theorem c6_report_sorted_desc (st : AggState) (extensionKey : String) :
    List.Sorted (fun a b : Nat × Nat => b.2 ≤ a.2) (count_vec st extensionKey)
      ∧ List.Perm (count_vec st extensionKey) (lookupTally st extensionKey) :=
  ⟨sortByCountDesc_sorted (lookupTally st extensionKey),
   sortByCountDesc_perm (lookupTally st extensionKey)⟩

/-- C5: `get_character_category` is a pure total function: for every
category table and every character it returns exactly one of the five
category names, assigned by first-match order — Letter/Number first
(Alphanumeric), then space separator (Space), then punctuation, then
symbol, and everything matching none of the tables (marks, control,
format, other separators, …) maps to Other. -/
theorem c5_category_total_first_match (U : UnicodeCategories) (c : Char) :
    (get_character_category U c = "Alphanumeric" ∨ get_character_category U c = "Space"
      ∨ get_character_category U c = "Punctuation" ∨ get_character_category U c = "Symbol"
      ∨ get_character_category U c = "Other")
    ∧ (get_character_category U c = "Alphanumeric"
        ↔ (U.is_letter c || U.is_number c) = true)
    ∧ (get_character_category U c = "Space"
        ↔ (U.is_letter c || U.is_number c) = false ∧ U.is_separator_space c = true)
    ∧ (get_character_category U c = "Punctuation"
        ↔ (U.is_letter c || U.is_number c) = false ∧ U.is_separator_space c = false
          ∧ U.is_punctuation c = true)
    ∧ (get_character_category U c = "Symbol"
        ↔ (U.is_letter c || U.is_number c) = false ∧ U.is_separator_space c = false
          ∧ U.is_punctuation c = false ∧ U.is_symbol c = true)
    ∧ (get_character_category U c = "Other"
        ↔ (U.is_letter c || U.is_number c) = false ∧ U.is_separator_space c = false
          ∧ U.is_punctuation c = false ∧ U.is_symbol c = false) := by
  unfold get_character_category
  split_ifs with h1 h2 h3 h4 <;>
    refine ⟨by tauto, ?_, ?_, ?_, ?_, ?_⟩ <;>
    simp_all <;> rcases h1 with h1a | h1a <;> intros <;> simp_all

/-- Looking up after a `bump`: the bumped key reads one higher, every
other key is untouched. -/
theorem alookup_bump {α : Type} [DecidableEq α] (m : List (α × Nat)) (k k' : α) :
    alookup (bump m k) k'
      = if k = k' then some ((alookup m k').getD 0 + 1) else alookup m k' := by
  induction m with
  | nil =>
    by_cases h : k = k' <;> simp [bump, alookup, h]
  | cons q rest ih =>
    obtain ⟨a, v⟩ := q
    by_cases hak : a = k
    · subst hak
      by_cases hk' : a = k' <;> simp [bump, alookup, hk', ih]
    · by_cases hak' : a = k'
      · subst hak'
        have hkk' : ¬ k = a := fun h => hak h.symm
        simp [bump, alookup, hak, hkk']
      · simp [bump, alookup, hak, hak', ih]

/-- Looking up after a `bumpTally`: the bumped extension's tally is the
old tally (empty when absent) with the codepoint bumped; other
extensions are untouched. -/
theorem alookup_bumpTally (m : List (String × List (Nat × Nat))) (ext ext' : String)
    (cp : Nat) :
    alookup (bumpTally m ext cp) ext'
      = if ext = ext' then some (bump ((alookup m ext').getD []) cp)
        else alookup m ext' := by
  induction m with
  | nil =>
    by_cases h : ext = ext' <;> simp [bumpTally, alookup, bump, h]
  | cons q rest ih =>
    obtain ⟨a, t⟩ := q
    by_cases hak : a = ext
    · subst hak
      by_cases hk' : a = ext' <;> simp [bumpTally, alookup, hk', ih]
    · by_cases hak' : a = ext'
      · subst hak'
        have hkk' : ¬ ext = a := fun h => hak h.symm
        simp [bumpTally, alookup, hak, hkk']
      · simp [bumpTally, alookup, hak, hak', ih]

/-- Bumping a codepoint adds exactly one to the tally's total count. -/
theorem sumCounts_bump (t : List (Nat × Nat)) (cp : Nat) :
    sumCounts (bump t cp) = sumCounts t + 1 := by
  induction t with
  | nil => rfl
  | cons q rest ih =>
    by_cases h : q.1 = cp
    · obtain ⟨a, v⟩ := q
      simp_all [bump, sumCounts]
      omega
    · obtain ⟨a, v⟩ := q
      simp_all [bump, sumCounts]
      omega

/-- Bumping a codepoint adds one to the ASCII count sum exactly when the
codepoint is `≤ 0x7F`. -/
theorem sumAsciiCounts_bump (t : List (Nat × Nat)) (cp : Nat) :
    sumAsciiCounts (bump t cp)
      = sumAsciiCounts t + (if cp ≤ 0x7F then 1 else 0) := by
  induction t with
  | nil => simp [bump, sumAsciiCounts]
  | cons q rest ih =>
    obtain ⟨a, v⟩ := q
    by_cases h : a = cp
    · subst h
      by_cases ha : a ≤ 0x7F <;> (simp [bump, sumAsciiCounts, ha]; try omega)
    · by_cases ha : a ≤ 0x7F <;> (simp [bump, sumAsciiCounts, h, ha, ih]; try omega)

/-- The ASCII count sum never exceeds the total count sum. -/
theorem sumAsciiCounts_le_sumCounts (t : List (Nat × Nat)) :
    sumAsciiCounts t ≤ sumCounts t := by
  induction t with
  | nil => exact Nat.le_refl 0
  | cons q rest ih =>
    by_cases h : q.1 ≤ 0x7F <;> simp [sumAsciiCounts, sumCounts, h] <;> omega

/-- The empty aggregator satisfies the consistency invariant. -/
theorem consistent_emptyAgg : Consistent emptyAgg := by
  refine ⟨fun ext => rfl, fun ext => rfl, fun ext t h => ?_⟩
  simp [emptyAgg, alookup] at h

/-- One tally-loop iteration preserves the consistency invariant. -/
theorem consistent_tallyStep (st st' : AggState) (extensionKey grapheme : String)
    (hstep : tallyStep st extensionKey grapheme = some st')
    (hc : Consistent st) : Consistent st' := by
  obtain ⟨h1, h2, h3⟩ := hc
  cases hg : grapheme.toList with
  | nil =>
    simp only [tallyStep, hg] at hstep
    exact Option.noConfusion hstep
  | cons c cs =>
    simp only [tallyStep, hg] at hstep
    by_cases hctl : char_is_control c
    · rw [if_pos hctl] at hstep
      cases hstep
      exact ⟨h1, h2, h3⟩
    · rw [if_neg hctl] at hstep
      cases hstep
      refine ⟨fun ext => ?_, fun ext => ?_, fun ext t h => ?_⟩
      · show (alookup (bump st.total_chars_by_extension extensionKey) ext).getD 0
          = sumCounts ((alookup (bumpTally st.codepoint_counts_by_extension
              extensionKey c.toNat) ext).getD [])
        rw [alookup_bump, alookup_bumpTally]
        by_cases he : extensionKey = ext
        · rw [if_pos he, if_pos he]
          simp only [Option.getD_some]
          rw [sumCounts_bump]
          exact congrArg (· + 1) (h1 ext)
        · rw [if_neg he, if_neg he]
          exact h1 ext
      · show (alookup (if c.toNat ≤ 0x7F
              then bump st.ascii_chars_by_extension extensionKey
              else st.ascii_chars_by_extension) ext).getD 0
          = sumAsciiCounts ((alookup (bumpTally st.codepoint_counts_by_extension
              extensionKey c.toNat) ext).getD [])
        rw [alookup_bumpTally]
        by_cases he : extensionKey = ext
        · rw [if_pos he]
          simp only [Option.getD_some]
          rw [sumAsciiCounts_bump]
          by_cases hascii : c.toNat ≤ 0x7F
          · rw [if_pos hascii, if_pos hascii, alookup_bump, if_pos he]
            simp only [Option.getD_some]
            exact congrArg (· + 1) (h2 ext)
          · rw [if_neg hascii, if_neg hascii, Nat.add_zero]
            exact h2 ext
        · rw [if_neg he]
          by_cases hascii : c.toNat ≤ 0x7F
          · rw [if_pos hascii, alookup_bump, if_neg he]
            exact h2 ext
          · rw [if_neg hascii]
            exact h2 ext
      · simp only at h
        rw [alookup_bumpTally] at h
        by_cases he : extensionKey = ext
        · rw [if_pos he] at h
          cases h
          rw [sumCounts_bump]
          exact Nat.le_add_left 1 _
        · rw [if_neg he] at h
          exact h3 ext t h

/-- The grapheme loop preserves the consistency invariant. -/
theorem consistent_processGraphemes (extensionKey : String) (gs : List String)
    (st st' : AggState) (hrun : processGraphemes extensionKey gs st = some st')
    (hc : Consistent st) : Consistent st' := by
  induction gs generalizing st with
  | nil =>
    rw [processGraphemes] at hrun
    cases hrun
    exact hc
  | cons g rest ih =>
    rw [processGraphemes] at hrun
    cases hstep : tallyStep st extensionKey g with
    | none => rw [hstep] at hrun; cases hrun
    | some stm =>
      rw [hstep] at hrun
      exact ih stm hrun (consistent_tallyStep st stm extensionKey g hstep hc)

/-- `process_file` preserves the consistency invariant. -/
theorem consistent_process_file (L : UnicodeLib) (path : String)
    (readResult : Except String String) (extensionKey : String)
    (st : AggState) (st' : AggState) (warnings : List String)
    (hrun : process_file L path readResult extensionKey st = some (st', warnings))
    (hc : Consistent st) : Consistent st' := by
  cases readResult with
  | ok content =>
    rw [process_file] at hrun
    cases hgs : processGraphemes extensionKey (L.graphemes (L.nfc content)) st with
    | none =>
      rw [hgs] at hrun
      exact Option.noConfusion hrun
    | some stm =>
      rw [hgs] at hrun
      cases hrun
      exact consistent_processGraphemes extensionKey _ st st' hgs hc
  | error err =>
    rw [process_file] at hrun
    cases hrun
    exact hc

/-- The traversal loop preserves the consistency invariant. -/
theorem consistent_runFiles (L : UnicodeLib) (files : List FileInput)
    (st st' : AggState) (hrun : runFiles L files st = some st')
    (hc : Consistent st) : Consistent st' := by
  induction files generalizing st with
  | nil =>
    rw [runFiles] at hrun
    cases hrun
    exact hc
  | cons f rest ih =>
    rw [runFiles] at hrun
    cases hf : process_file L f.path f.readResult f.extensionKey st with
    | none => rw [hf] at hrun; cases hrun
    | some pr =>
      rw [hf] at hrun
      exact ih pr.1 hrun
        (consistent_process_file L f.path f.readResult f.extensionKey st pr.1 pr.2 hf hc)

/-- C1: after processing any sequence of files from the empty aggregator,
for every partition key the running counters agree with the tally:
`total_chars` is the sum of all tally counts, `ascii_chars` is the sum of
the counts with codepoint `≤ 0x7F`, and `total_chars` is `ascii_chars`
plus the reported non-ASCII count `total_chars - ascii_chars` (both
counters are naturals, hence non-negative). -/
theorem c1_counters_consistent (L : UnicodeLib) (files : List FileInput)
    (st : AggState) (extensionKey : String)
    (hrun : runFiles L files emptyAgg = some st) :
    lookupTotal st extensionKey = sumCounts (lookupTally st extensionKey)
      ∧ lookupAscii st extensionKey = sumAsciiCounts (lookupTally st extensionKey)
      ∧ lookupAscii st extensionKey ≤ lookupTotal st extensionKey
      ∧ lookupTotal st extensionKey
        = lookupAscii st extensionKey
          + (lookupTotal st extensionKey - lookupAscii st extensionKey) := by
  obtain ⟨h1, h2, h3⟩ := consistent_runFiles L files emptyAgg st hrun consistent_emptyAgg
  have hle : lookupAscii st extensionKey ≤ lookupTotal st extensionKey := by
    rw [h1 extensionKey, h2 extensionKey]
    exact sumAsciiCounts_le_sumCounts _
  exact ⟨h1 extensionKey, h2 extensionKey, hle, (Nat.add_sub_cancel' hle).symm⟩

/-- C1 witness: the consistency facts evaluated after processing one
file containing `Hi!`. -/
theorem c1_counters_consistent_witness :
    lookupTotal (AggState.mk [("txt", [(72, 1), (105, 1), (33, 1)])]
        [("txt", 3)] [("txt", 3)]) "txt"
      = sumCounts (lookupTally (AggState.mk [("txt", [(72, 1), (105, 1), (33, 1)])]
        [("txt", 3)] [("txt", 3)]) "txt")
      ∧ lookupAscii (AggState.mk [("txt", [(72, 1), (105, 1), (33, 1)])]
        [("txt", 3)] [("txt", 3)]) "txt"
      = sumAsciiCounts (lookupTally (AggState.mk [("txt", [(72, 1), (105, 1), (33, 1)])]
        [("txt", 3)] [("txt", 3)]) "txt")
      ∧ lookupAscii (AggState.mk [("txt", [(72, 1), (105, 1), (33, 1)])]
        [("txt", 3)] [("txt", 3)]) "txt"
      ≤ lookupTotal (AggState.mk [("txt", [(72, 1), (105, 1), (33, 1)])]
        [("txt", 3)] [("txt", 3)]) "txt"
      ∧ lookupTotal (AggState.mk [("txt", [(72, 1), (105, 1), (33, 1)])]
        [("txt", 3)] [("txt", 3)]) "txt"
      = lookupAscii (AggState.mk [("txt", [(72, 1), (105, 1), (33, 1)])]
        [("txt", 3)] [("txt", 3)]) "txt"
        + (lookupTotal (AggState.mk [("txt", [(72, 1), (105, 1), (33, 1)])]
            [("txt", 3)] [("txt", 3)]) "txt"
          - lookupAscii (AggState.mk [("txt", [(72, 1), (105, 1), (33, 1)])]
            [("txt", 3)] [("txt", 3)]) "txt") :=
  c1_counters_consistent modelLib [⟨"a.txt", "txt", Except.ok "Hi!"⟩]
    (AggState.mk [("txt", [(72, 1), (105, 1), (33, 1)])] [("txt", 3)] [("txt", 3)])
    "txt" (by decide)

/-- C9: after any traversal from the empty aggregator, every partition key
present in `codepoint_counts_by_extension` is also present in
`total_chars_by_extension` with a value that is at least 1 and at least
the partition's `ascii_chars`; hence in the report loop the percentage
denominator is nonzero and `total_chars - ascii_chars` cannot underflow. -/
theorem c9_reported_partition_safe (L : UnicodeLib) (files : List FileInput)
    (st : AggState) (extensionKey : String) (t : List (Nat × Nat))
    (hrun : runFiles L files emptyAgg = some st)
    (hmem : alookup st.codepoint_counts_by_extension extensionKey = some t) :
    alookup st.total_chars_by_extension extensionKey
        = some (lookupTotal st extensionKey)
      ∧ 1 ≤ lookupTotal st extensionKey
      ∧ lookupAscii st extensionKey ≤ lookupTotal st extensionKey := by
  obtain ⟨h1, h2, h3⟩ := consistent_runFiles L files emptyAgg st hrun consistent_emptyAgg
  have htally : lookupTally st extensionKey = t := by
    rw [lookupTally, hmem]
    rfl
  have hpos : 1 ≤ lookupTotal st extensionKey := by
    rw [h1 extensionKey, htally]
    exact h3 extensionKey t hmem
  have hle : lookupAscii st extensionKey ≤ lookupTotal st extensionKey := by
    rw [h1 extensionKey, h2 extensionKey]
    exact sumAsciiCounts_le_sumCounts _
  refine ⟨?_, hpos, hle⟩
  cases hx : alookup st.total_chars_by_extension extensionKey with
  | none =>
    exfalso
    rw [lookupTotal, hx] at hpos
    simp at hpos
  | some n =>
    rw [lookupTotal, hx]
    rfl

/-- C9 witness: the safety facts evaluated after processing one file
containing `Hi!`. -/
theorem c9_reported_partition_safe_witness :
    alookup (AggState.mk [("txt", [(72, 1), (105, 1), (33, 1)])]
        [("txt", 3)] [("txt", 3)]).total_chars_by_extension "txt"
      = some (lookupTotal (AggState.mk [("txt", [(72, 1), (105, 1), (33, 1)])]
        [("txt", 3)] [("txt", 3)]) "txt")
      ∧ 1 ≤ lookupTotal (AggState.mk [("txt", [(72, 1), (105, 1), (33, 1)])]
        [("txt", 3)] [("txt", 3)]) "txt"
      ∧ lookupAscii (AggState.mk [("txt", [(72, 1), (105, 1), (33, 1)])]
        [("txt", 3)] [("txt", 3)]) "txt"
      ≤ lookupTotal (AggState.mk [("txt", [(72, 1), (105, 1), (33, 1)])]
        [("txt", 3)] [("txt", 3)]) "txt" :=
  c9_reported_partition_safe modelLib [⟨"a.txt", "txt", Except.ok "Hi!"⟩]
    (AggState.mk [("txt", [(72, 1), (105, 1), (33, 1)])] [("txt", 3)] [("txt", 3)])
    "txt" [(72, 1), (105, 1), (33, 1)] (by decide) (by decide)

/-- C8 amended: the code computes the percentages with no special case for
a zero total (a zero total would give NaN), but a partition with zero
tallied characters is never reported: every partition present in the
counts map after a traversal has `total_chars ≥ 1`, so the percentage
computations of the report loop are always defined. -/
theorem c8_reported_percent_defined (L : UnicodeLib) (files : List FileInput)
    (st : AggState) (extensionKey : String) (t : List (Nat × Nat))
    (hrun : runFiles L files emptyAgg = some st)
    (hmem : alookup st.codepoint_counts_by_extension extensionKey = some t) :
    (ascii_percent (lookupAscii st extensionKey)
        (lookupTotal st extensionKey)).isSome = true
      ∧ (non_ascii_percent (lookupAscii st extensionKey)
        (lookupTotal st extensionKey)).isSome = true := by
  obtain ⟨h1, h2, h3⟩ := consistent_runFiles L files emptyAgg st hrun consistent_emptyAgg
  have htally : lookupTally st extensionKey = t := by
    rw [lookupTally, hmem]
    rfl
  have hpos : 1 ≤ lookupTotal st extensionKey := by
    rw [h1 extensionKey, htally]
    exact h3 extensionKey t hmem
  have hne : lookupTotal st extensionKey ≠ 0 := Nat.one_le_iff_ne_zero.mp hpos
  have h4 : ascii_percent (lookupAscii st extensionKey) (lookupTotal st extensionKey)
      = some ((lookupAscii st extensionKey : ℚ)
          / (lookupTotal st extensionKey : ℚ) * 100) := by
    rw [ascii_percent, if_neg hne]
  constructor
  · rw [h4]
    rfl
  · rw [non_ascii_percent, h4]
    rfl

/-- C8 amended witness: the percentages are defined for the partition
produced by processing one file containing `Hi!`. -/
theorem c8_reported_percent_defined_witness :
    (ascii_percent (lookupAscii (AggState.mk [("txt", [(72, 1), (105, 1), (33, 1)])]
          [("txt", 3)] [("txt", 3)]) "txt")
        (lookupTotal (AggState.mk [("txt", [(72, 1), (105, 1), (33, 1)])]
          [("txt", 3)] [("txt", 3)]) "txt")).isSome = true
      ∧ (non_ascii_percent (lookupAscii (AggState.mk [("txt", [(72, 1), (105, 1), (33, 1)])]
          [("txt", 3)] [("txt", 3)]) "txt")
        (lookupTotal (AggState.mk [("txt", [(72, 1), (105, 1), (33, 1)])]
          [("txt", 3)] [("txt", 3)]) "txt")).isSome = true :=
  c8_reported_percent_defined modelLib [⟨"a.txt", "txt", Except.ok "Hi!"⟩]
    (AggState.mk [("txt", [(72, 1), (105, 1), (33, 1)])] [("txt", 3)] [("txt", 3)])
    "txt" [(72, 1), (105, 1), (33, 1)] (by decide) (by decide)

/-- When every grapheme in the list is non-empty, the tally loop never
reaches the `unwrap` panic. -/
theorem processGraphemes_isSome (extensionKey : String) (gs : List String)
    (st : AggState) (h : ∀ g ∈ gs, g.toList ≠ []) :
    (processGraphemes extensionKey gs st).isSome = true := by
  induction gs generalizing st with
  | nil => rfl
  | cons g rest ih =>
    cases hg : g.toList with
    | nil => exact absurd hg (h g (List.mem_cons_self g rest))
    | cons c cs =>
      have hstep : ∃ st', tallyStep st extensionKey g = some st' := by
        simp only [tallyStep, hg]
        by_cases hctl : char_is_control c
        · exact ⟨st, by rw [if_pos hctl]⟩
        · exact ⟨_, by rw [if_neg hctl]⟩
      obtain ⟨st', hst'⟩ := hstep
      rw [processGraphemes, hst']
      exact ih st' (fun g' hg' => h g' (List.mem_cons_of_mem g hg'))

/-- C10: for every library whose segmentation only produces non-empty
grapheme clusters (the `unicode_segmentation` contract), `process_file`
never reaches the `grapheme.chars().next().unwrap()` panic: it returns a
result on every input. -/
theorem c10_no_panic (L : UnicodeLib) (hL : GraphemesNonEmpty L) (path : String)
    (readResult : Except String String) (extensionKey : String) (st : AggState) :
    (process_file L path readResult extensionKey st).isSome = true := by
  cases readResult with
  | ok content =>
    have hsome := processGraphemes_isSome extensionKey
      (L.graphemes (L.nfc content)) st (fun g hg => hL (L.nfc content) g hg)
    rw [process_file]
    cases hgs : processGraphemes extensionKey (L.graphemes (L.nfc content)) st with
    | none =>
      rw [hgs] at hsome
      exact absurd hsome (by simp)
    | some st' => rfl
  | error err => rfl

/-- Every cluster emitted by `clustersAux` starts with a base character,
so it is non-empty. -/
theorem clustersAux_ne_nil (l : List Char) (base : Char) (marks : List Char)
    (p : List Char) (hp : p ∈ clustersAux base marks l) : p ≠ [] := by
  induction l generalizing base marks with
  | nil =>
    rw [clustersAux] at hp
    rw [List.mem_singleton.mp hp]
    exact List.cons_ne_nil _ _
  | cons c rest ih =>
    rw [clustersAux] at hp
    by_cases hc : isCombiningMark c
    · rw [if_pos hc] at hp
      exact ih base (c :: marks) hp
    · rw [if_neg hc] at hp
      rcases List.mem_cons.mp hp with hph | hpt
      · rw [hph]
        exact List.cons_ne_nil _ _
      · exact ih c [] hpt

/-- Every cluster emitted by the model segmentation is non-empty. -/
theorem clusters_ne_nil (l : List Char) (p : List Char) (hp : p ∈ clusters l) :
    p ≠ [] := by
  cases l with
  | nil => simp [clusters] at hp
  | cons c rest => exact clustersAux_ne_nil rest c [] p hp

/-- The model library satisfies the segmentation contract: all clusters
are non-empty strings. -/
theorem modelLib_graphemes_nonEmpty : GraphemesNonEmpty modelLib := by
  intro s g hg
  rcases List.mem_map.mp hg with ⟨p, hp, hgp⟩
  have hne := clusters_ne_nil s.toList p hp
  rw [← hgp]
  exact hne

/-- C10 witness: `process_file` returns a result on a concrete file
containing an ASCII letter, a combining mark and a control character. -/
theorem c10_no_panic_witness :
    (process_file modelLib "w.txt"
        (Except.ok (String.mk [Char.ofNat 0x48, Char.ofNat 0x301, Char.ofNat 0x07]))
        "txt" emptyAgg).isSome = true :=
  c10_no_panic modelLib modelLib_graphemes_nonEmpty "w.txt"
    (Except.ok (String.mk [Char.ofNat 0x48, Char.ofNat 0x301, Char.ofNat 0x07]))
    "txt" emptyAgg

end SrcAnalysis
